import Mathlib

/-!
Shallow embedding of the HiDocu import tooling (src/import_data.py and
src/create_db.py).  Python strings are modeled as lists of Unicode
characters (List Char), matching Python str semantics; byte lengths are
the sums of the UTF-8 sizes of the characters.  SQLite tables are
modeled as lists of rows; the UNIQUE constraint on documents.disk_path
makes the document insert Option-valued (none models the raised
IntegrityError, which aborts the run).
-/

namespace HiDocu

/-- UTF-8 byte length of a Python string, as computed by len(s.encode()). -/
def utf8Len (l : List Char) : Nat := (l.map Char.utf8Size).sum

/-- Stage 1 of sanitize_filename: replacing each occurrence of two
consecutive dots by one underscore, left to right and non-overlapping,
exactly as Python str.replace does. -/
def replaceDotDot : List Char → List Char
  | [] => []
  | [c] => [c]
  | c :: c2 :: rest =>
    if c = '.' ∧ c2 = '.' then '_' :: replaceDotDot rest
    else c :: replaceDotDot (c2 :: rest)

/-- Characters rewritten to a hyphen by stage 2 of sanitize_filename:
the path separator, the colon, and the control characters with code
points 0 through 31 (the regex character class of the source). -/
def isBadChar (c : Char) : Bool :=
  decide (c = '/') || decide (c = ':') || decide (c.toNat ≤ 31)

/-- Stage 2 of sanitize_filename: each matching character is replaced
by a hyphen independently. -/
def replaceBadChars (l : List Char) : List Char :=
  l.map (fun c => if isBadChar c then '-' else c)

/-- Stage 3 of sanitize_filename: collapse each run of space characters
to a single space. -/
def collapseSpaces : List Char → List Char
  | [] => []
  | [c] => [c]
  | c :: c2 :: rest =>
    if c = ' ' ∧ c2 = ' ' then collapseSpaces (c2 :: rest)
    else c :: collapseSpaces (c2 :: rest)

/-- Characters treated as whitespace by Python str.strip() with no
arguments (the str.isspace character set). -/
def isPyWhitespace (c : Char) : Bool :=
  c.toNat ∈ ([9, 10, 11, 12, 13, 28, 29, 30, 31, 32, 133, 160, 5760,
    8192, 8193, 8194, 8195, 8196, 8197, 8198, 8199, 8200, 8201, 8202,
    8232, 8233, 8239, 8287, 12288] : List Nat)

/-- Python str.strip(): drop leading and trailing whitespace. -/
def stripWs (l : List Char) : List Char :=
  ((l.dropWhile isPyWhitespace).reverse.dropWhile isPyWhitespace).reverse

/-- Test for a dot character, the argument of the second strip. -/
def isDotChar (c : Char) : Bool := decide (c = '.')

/-- Python str.strip with a dot argument: drop leading and trailing dots. -/
def stripDots (l : List Char) : List Char :=
  ((l.dropWhile isDotChar).reverse.dropWhile isDotChar).reverse

/-- One truncation pass with explicit fuel: while the UTF-8 length
exceeds 255, drop the last character.  Each iteration removes one
character, so a fuel equal to the length of the list is always enough;
the fuel makes the recursion structural. -/
def truncGo : Nat → List Char → List Char
  | 0, l => l
  | n + 1, l => if 255 < utf8Len l then truncGo n l.dropLast else l

/-- Stage 5 of sanitize_filename: truncate from the end until the UTF-8
byte length is at most 255. -/
def truncate255 (l : List Char) : List Char := truncGo l.length l

/-- Model of sanitize_filename from src/import_data.py: path-traversal
replacement, forbidden-character replacement, space collapsing,
stripping of whitespace and dots, byte-length truncation, and the
Untitled fallback for an empty result. -/
def sanitizeFilename (name : List Char) : List Char :=
  let r := truncate255 (stripDots (stripWs (collapseSpaces
    (replaceBadChars (replaceDotDot name)))))
  if r = [] then ("Untitled").toList else r


/-- Stage 1 of clean_title: filename.replace of the three characters
dot m d by the empty string, left to right and non-overlapping, exactly
as Python str.replace does. -/
def removeMd : List Char → List Char
  | [] => []
  | [c] => [c]
  | [c, c2] => [c, c2]
  | c :: c2 :: c3 :: rest =>
    if c = '.' ∧ c2 = 'm' ∧ c3 = 'd' then removeMd rest
    else c :: removeMd (c2 :: c3 :: rest)

/-- Occurrence test for the three-character pattern dot m d inside a
string. -/
def containsMd : List Char → Bool
  | [] => false
  | [_] => false
  | [_, _] => false
  | c :: c2 :: c3 :: rest =>
    (decide (c = '.') && decide (c2 = 'm') && decide (c3 = 'd'))
      || containsMd (c2 :: c3 :: rest)

/-- Python name.split at the first underscore: none when there is no
underscore, otherwise the pieces before and after it. -/
def splitUnderscoreOnce : List Char → Option (List Char × List Char)
  | [] => none
  | c :: rest =>
    if c = '_' then some ([], rest)
    else
      match splitUnderscoreOnce rest with
      | none => none
      | some (a, b) => some (c :: a, b)

/-- Python str.isdigit restricted to ASCII digits: nonempty and all
digits. -/
def isAsciiDigits (l : List Char) : Bool := decide (l ≠ []) && l.all Char.isDigit

/-- Stage 2 of clean_title: when the part before the first underscore
is purely numeric, keep only the part after it. -/
def stripNumericArm (l : List Char) : List Char :=
  match splitUnderscoreOnce l with
  | none => l
  | some (a, b) => if isAsciiDigits a then b else l

/-- Stage 3 of clean_title: replace each underscore by a space. -/
def underscoresToSpaces (l : List Char) : List Char :=
  l.map (fun c => if c = '_' then ' ' else c)

/-- Python str.split() with no arguments, with explicit fuel: split on
runs of whitespace, discarding empty words.  Each step consumes at
least one character, so a fuel equal to the length is enough. -/
def pySplitGo : Nat → List Char → List (List Char)
  | 0, _ => []
  | _, [] => []
  | fuel + 1, c :: rest =>
    if isPyWhitespace c then pySplitGo fuel rest
    else (c :: rest.takeWhile (fun d => !(isPyWhitespace d)))
      :: pySplitGo fuel (rest.dropWhile (fun d => !(isPyWhitespace d)))

/-- Python str.split() with no arguments. -/
def pySplitWs (l : List Char) : List (List Char) := pySplitGo l.length l

/-- Python str.capitalize restricted to ASCII case mapping: first
character upper-cased, the rest lower-cased. -/
def capitalizeWord : List Char → List Char
  | [] => []
  | c :: rest => Char.toUpper c :: rest.map Char.toLower

/-- Python single-space str.join. -/
def joinSpaces : List (List Char) → List Char
  | [] => []
  | [w] => w
  | w :: ws => w ++ ' ' :: joinSpaces ws

/-- Model of HiDocuImporter.clean_title from src/import_data.py:
extension removal, numeric-prefix stripping, underscore replacement and
per-word capitalization. -/
def cleanTitle (filename : List Char) : List Char :=
  let n1 := removeMd filename
  let n2 := stripNumericArm n1
  let n3 := underscoresToSpaces n2
  joinSpaces ((pySplitWs n3).map capitalizeWord)

/-- Decimal digit character for a value below ten. -/
def digitChar (n : Nat) : Char := Char.ofNat (48 + n)

/-- Decimal rendering of a natural number with explicit fuel; a fuel
above the number itself is always enough, making the recursion
structural. -/
def toDecimalGo : Nat → Nat → List Char
  | 0, _ => []
  | fuel + 1, n =>
    if n < 10 then [digitChar n]
    else toDecimalGo fuel (n / 10) ++ [digitChar (n % 10)]

/-- Decimal rendering of a natural number, as Python str of an int. -/
def toDecimal (n : Nat) : List Char := toDecimalGo (n + 1) n

/-- Length of the longest path in a list of filesystem paths. -/
def maxLen (fs : List (List Char)) : Nat := fs.foldr (fun p m => max p.length m) 0

/-- Python f-string joining of a parent disk path and a child segment
with a slash, where an empty (falsy) parent yields the bare segment. -/
def joinSeg (parent seg : List Char) : List Char :=
  if parent = [] then seg else parent ++ '/' :: seg

/-- Bundle directory name of a document without a disambiguator. -/
def docBundleName (sanitized : List Char) : List Char :=
  sanitized ++ (".document").toList

/-- Bundle directory name with the numeric disambiguator appended
after a space. -/
def candBundleName (sanitized : List Char) (counter : Nat) : List Char :=
  sanitized ++ ' ' :: toDecimal counter ++ (".document").toList

/-- Candidate on-disk path checked by the collision loop at a given
counter value. -/
def candPath (folderDiskPath sanitized : List Char) (counter : Nat) : List Char :=
  joinSeg folderDiskPath (candBundleName sanitized counter)

/-- Collision loop of create_document with explicit fuel: while the
candidate path exists on disk, rebuild it with the next counter.  The
loop in the source is unbounded; the fuel chosen in resolveCollision is
provably never exhausted, see resolveGo_not_mem below. -/
def resolveGo (fs : List (List Char)) (folderDiskPath sanitized : List Char) :
    Nat → Nat → List Char
  | 0, counter => candPath folderDiskPath sanitized counter
  | fuel + 1, counter =>
    if candPath folderDiskPath sanitized counter ∈ fs then
      resolveGo fs folderDiskPath sanitized fuel (counter + 1)
    else candPath folderDiskPath sanitized counter

/-- Collision resolution of create_document starting at a counter
value: the first candidate path that does not exist on disk.  Any path
present in fs has length at most maxLen fs, so counters at or beyond
10 ^ (maxLen fs + 1) render to paths longer than any member of fs and
the fuel suffices. -/
def resolveCollision (fs : List (List Char)) (folderDiskPath sanitized : List Char)
    (counter : Nat) : List Char :=
  resolveGo fs folderDiskPath sanitized (10 ^ (maxLen fs + 1) - counter) counter

/-- Row of the folders table, with the fields the importer writes that
the claims speak about. -/
structure FolderRow where
  id : Nat
  parentId : Option Nat
  name : List Char
  diskPath : List Char
  deriving DecidableEq, Repr

/-- Row of the documents table, with the fields the importer writes
that the claims speak about (the content hash and fixed defaults are
not modeled). -/
structure DocRow where
  id : Nat
  folderId : Option Nat
  title : List Char
  diskPath : List Char
  bodyPreview : List Char
  createdAt : Int
  deriving DecidableEq, Repr

/-- Row of the sources table (only identity is relevant here). -/
structure SourceRow where
  id : Nat
  documentId : Nat
  deriving DecidableEq, Repr

/-- Row of the transcripts table (only identity is relevant here). -/
structure TranscriptRow where
  id : Nat
  sourceId : Nat
  deriving DecidableEq, Repr

/-- Row of the deletion_log table (only identity is relevant here). -/
structure DeletionLogRow where
  id : Nat
  documentId : Nat
  deriving DecidableEq, Repr

/-- State of one HiDocuImporter run: the filesystem under the data
directory as a list of existing relative paths, the database tables as
row lists, the in-memory folder_map from source-relative path strings
to (folder id, disk path), and the AUTOINCREMENT counters. -/
structure ImportState where
  fs : List (List Char)
  documents : List DocRow
  folders : List FolderRow
  sources : List SourceRow
  transcripts : List TranscriptRow
  deletionLog : List DeletionLogRow
  folderMap : List (List Char × Nat × List Char)
  nextFolderId : Nat
  nextDocId : Nat
  deriving DecidableEq, Repr

/-- Disk paths of all document rows, the column the UNIQUE constraint
guards. -/
def docPaths (st : ImportState) : List (List Char) :=
  st.documents.map DocRow.diskPath

/-- Lookup in the folder_map dictionary, modeled as an association
list: first binding with a matching key. -/
def mapLookup : List (List Char × Nat × List Char) → List Char → Option (Nat × List Char)
  | [], _ => none
  | (k, v) :: rest, key => if k = key then some v else mapLookup rest key

/-- Joining of path components into the str(Path(...)) key used by the
folder_map. -/
def joinParts : List (List Char) → List Char
  | [] => []
  | [p] => p
  | p :: ps => p ++ '/' :: joinParts ps

/-- Model of HiDocuImporter.create_folder: sanitize the display name,
join it under the parent disk path, create the directory on disk
unless in database-only mode, insert the folder row and commit.
Returns the new folder id, its disk path, and the new state. -/
def createFolder (dbOnly : Bool) (st : ImportState) (name : List Char)
    (parentId : Option Nat) (parentDiskPath : List Char) :
    Nat × List Char × ImportState :=
  let sanitized := sanitizeFilename name
  let diskPath := joinSeg parentDiskPath sanitized
  let st1 := if dbOnly then st else { st with fs := st.fs ++ [diskPath] }
  let row : FolderRow :=
    { id := st.nextFolderId, parentId := parentId, name := name, diskPath := diskPath }
  (st.nextFolderId, diskPath,
    { st1 with folders := st1.folders ++ [row], nextFolderId := st.nextFolderId + 1 })

/-- Loop of get_or_create_folder_hierarchy over the path components:
done holds the components already traversed, and each step either hits
the folder_map memo or creates the folder and records it in the memo. -/
def hierAux (dbOnly : Bool) : ImportState → List (List Char) → List (List Char) →
    Option Nat → List Char → (Option Nat × List Char) × ImportState
  | st, _, [], parentId, parentDisk => ((parentId, parentDisk), st)
  | st, done, part :: rest, parentId, parentDisk =>
    let key := joinParts (done ++ [part])
    match mapLookup st.folderMap key with
    | some (fid, dpath) => hierAux dbOnly st (done ++ [part]) rest (some fid) dpath
    | none =>
      let r := createFolder dbOnly st part parentId parentDisk
      let st2 := { r.2.2 with folderMap := r.2.2.folderMap ++ [(key, r.1, r.2.1)] }
      hierAux dbOnly st2 (done ++ [part]) rest (some r.1) r.2.1

/-- Model of HiDocuImporter.get_or_create_folder_hierarchy: an empty
relative path (a file at the top level) yields no folder; otherwise
walk the components, creating missing folders.  Returns (folder id,
disk path) of the deepest folder and the new state. -/
def getOrCreateFolderHierarchy (dbOnly : Bool) (st : ImportState)
    (parts : List (List Char)) : (Option Nat × List Char) × ImportState :=
  hierAux dbOnly st [] parts none []

/-- Model of HiDocuImporter.create_document: sanitize the title, build
the bundle path, resolve collisions against the on-disk state unless in
database-only mode, insert the document row (none when the UNIQUE
constraint on disk_path is violated, modeling the raised
IntegrityError), then materialize the bundle files unless in
database-only mode, and always write metadata.yaml.  Returns the new
state and the assigned row id. -/
def createDocument (dbOnly : Bool) (st : ImportState) (title : List Char)
    (folderId : Option Nat) (content : List Char) (createdAt : Int)
    (folderDiskPath : List Char) : Option (ImportState × Nat) :=
  let sanitized := sanitizeFilename title
  let d0 := joinSeg folderDiskPath (docBundleName sanitized)
  let diskPath := if dbOnly then d0
    else if d0 ∈ st.fs then resolveCollision st.fs folderDiskPath sanitized 2 else d0
  if diskPath ∈ docPaths st then none
  else
    let row : DocRow :=
      { id := st.nextDocId, folderId := folderId, title := title,
        diskPath := diskPath, bodyPreview := content.take 500, createdAt := createdAt }
    let st1 :=
      { st with documents := st.documents ++ [row], nextDocId := st.nextDocId + 1 }
    let st2 := if dbOnly then st1 else
      { st1 with fs := st1.fs ++ [diskPath,
          diskPath ++ ("/sources").toList, diskPath ++ ("/body.md").toList,
          diskPath ++ ("/summary.md").toList] }
    let st3 := { st2 with fs := st2.fs ++ [diskPath ++ ("/metadata.yaml").toList] }
    some (st3, st.nextDocId)

/-- One source file as the import walk sees it: the components of its
directory relative to the source root, its base name, its modification
time in seconds, and its content (none models an unreadable file whose
read_text raises). -/
structure MdFile where
  folderParts : List (List Char)
  filename : List Char
  mtime : Int
  content : Option (List Char)
  deriving DecidableEq, Repr

/-- Synthetic creation timestamp of import_directory: the modification
time minus (totalFiles - index) minutes, in seconds. -/
def synthCreatedAt (total : Nat) (mtime : Int) (i : Nat) : Int :=
  mtime - ((total : Int) - (i : Int)) * 60

/-- Per-file loop of HiDocuImporter.import_directory: resolve the
folder hierarchy, then read the content; an unreadable file is skipped
and the loop continues, otherwise the document is created; a document
creation error aborts the whole run (none). -/
def importLoop (dbOnly : Bool) (total : Nat) :
    ImportState → List MdFile → Nat → Option ImportState
  | st, [], _ => some st
  | st, f :: rest, i =>
    let hr := getOrCreateFolderHierarchy dbOnly st f.folderParts
    match f.content with
    | none => importLoop dbOnly total hr.2 rest (i + 1)
    | some content =>
      match createDocument dbOnly hr.2 (cleanTitle f.filename) hr.1.1 content
          (synthCreatedAt total f.mtime i) hr.1.2 with
      | none => none
      | some (st2, _) => importLoop dbOnly total st2 rest (i + 1)

/-- Model of HiDocuImporter.import_directory on an already collected,
lexicographically sorted list of markdown files. -/
def importDirectory (dbOnly : Bool) (st : ImportState) (files : List MdFile) :
    Option ImportState :=
  importLoop dbOnly files.length st files 0

/-- Model of HiDocuImporter.clear_database: delete all rows from
transcripts, sources, documents, folders and deletion_log, in that
order, and commit.  The recordings and token-cache tables and the
in-memory folder_map are untouched, as in the source. -/
def clearDatabase (st : ImportState) : ImportState :=
  { st with
    transcripts := [], sources := [], documents := [],
    folders := [], deletionLog := [] }

/-- One top-level entry of the data directory as seen by iterdir. -/
structure FsEntry where
  name : List Char
  isDirectory : Bool
  deriving DecidableEq, Repr

/-- Test for a hidden entry: the name starts with a dot. -/
def hiddenEntry (e : FsEntry) : Bool :=
  match e.name with
  | [] => false
  | c :: _ => decide (c = '.')

/-- Model of HiDocuImporter.clear_filesystem: each top-level entry of
the data directory that is a directory and is not hidden is removed;
everything else is kept. -/
def clearFilesystem (entries : List FsEntry) : List FsEntry :=
  entries.filter (fun e => !(e.isDirectory && !(hiddenEntry e)))

/-- State of the SQLite schema for create_db.py: created tables and
indexes (name and the DDL text they were created with) and the rows of
the grdb_migrations table. -/
structure DbState where
  tables : List (String × String)
  indexes : List (String × String)
  migrations : List String
  deriving DecidableEq, Repr

/-- One statement executed by create_database. -/
inductive DbCmd where
  | createTable (name ddl : String)
  | createIndex (name ddl : String)
  | insertMigration (idf : String)
  deriving DecidableEq, Repr

/-- Execution of one statement: CREATE TABLE IF NOT EXISTS and CREATE
UNIQUE INDEX IF NOT EXISTS are no-ops when the name already exists,
INSERT OR IGNORE is a no-op when the identifier row already exists. -/
def applyCmd (st : DbState) : DbCmd → DbState
  | .createTable name ddl =>
    if name ∈ st.tables.map Prod.fst then st
    else { st with tables := st.tables ++ [(name, ddl)] }
  | .createIndex name ddl =>
    if name ∈ st.indexes.map Prod.fst then st
    else { st with indexes := st.indexes ++ [(name, ddl)] }
  | .insertMigration idf =>
    if idf ∈ st.migrations then st
    else { st with migrations := st.migrations ++ [idf] }

/-- Statements of create_database from src/create_db.py, in source
order, with the table definitions carried as their DDL text. -/
def schemaCmds : List DbCmd := [
  .createTable ("folders") ("id INTEGER PRIMARY KEY AUTOINCREMENT, parent_id INTEGER REFERENCES folders(id) ON DELETE CASCADE, name TEXT NOT NULL, disk_path TEXT, transcription_context TEXT, categorization_context TEXT, prefer_summary INTEGER NOT NULL DEFAULT 1, minimize_before_llm INTEGER NOT NULL DEFAULT 0, sort_order INTEGER NOT NULL DEFAULT 0, created_at DATETIME NOT NULL DEFAULT CURRENT_TIMESTAMP, modified_at DATETIME NOT NULL DEFAULT CURRENT_TIMESTAMP"),
  .createTable ("documents") ("id INTEGER PRIMARY KEY AUTOINCREMENT, folder_id INTEGER REFERENCES folders(id) ON DELETE SET NULL, title TEXT NOT NULL DEFAULT 'Untitled', document_type TEXT NOT NULL DEFAULT 'markdown', disk_path TEXT NOT NULL UNIQUE, body_preview TEXT, summary_text TEXT, body_hash TEXT, summary_hash TEXT, prefer_summary INTEGER NOT NULL DEFAULT 0, minimize_before_llm INTEGER NOT NULL DEFAULT 0, created_at DATETIME NOT NULL DEFAULT CURRENT_TIMESTAMP, modified_at DATETIME NOT NULL DEFAULT CURRENT_TIMESTAMP"),
  .createTable ("recordings") ("id INTEGER PRIMARY KEY AUTOINCREMENT, filename TEXT UNIQUE NOT NULL, filepath TEXT NOT NULL, title TEXT, file_size_bytes INTEGER, duration_seconds INTEGER, created_at DATETIME NOT NULL DEFAULT CURRENT_TIMESTAMP, modified_at DATETIME NOT NULL DEFAULT CURRENT_TIMESTAMP, device_serial TEXT, device_model TEXT, recording_mode TEXT"),
  .createTable ("sources") ("id INTEGER PRIMARY KEY AUTOINCREMENT, document_id INTEGER NOT NULL REFERENCES documents(id) ON DELETE CASCADE, source_type TEXT NOT NULL DEFAULT 'recording', recording_id INTEGER REFERENCES recordings(id) ON DELETE SET NULL, disk_path TEXT NOT NULL, display_name TEXT, sort_order INTEGER NOT NULL DEFAULT 0, added_at DATETIME NOT NULL DEFAULT CURRENT_TIMESTAMP"),
  .createTable ("transcripts") ("id INTEGER PRIMARY KEY AUTOINCREMENT, source_id INTEGER NOT NULL REFERENCES sources(id) ON DELETE CASCADE, title TEXT, full_text TEXT, md_file_path TEXT, is_primary INTEGER NOT NULL DEFAULT 0, created_at DATETIME NOT NULL DEFAULT CURRENT_TIMESTAMP, modified_at DATETIME NOT NULL DEFAULT CURRENT_TIMESTAMP"),
  .createIndex ("idx_transcripts_single_primary") ("ON transcripts(source_id) WHERE is_primary = 1"),
  .createTable ("deletion_log") ("id INTEGER PRIMARY KEY AUTOINCREMENT, document_id INTEGER NOT NULL, document_title TEXT, folder_path TEXT, deleted_at DATETIME NOT NULL DEFAULT CURRENT_TIMESTAMP, trash_path TEXT NOT NULL, expires_at DATETIME NOT NULL, original_created_at DATETIME, original_modified_at DATETIME"),
  .createTable ("document_token_cache") ("document_id INTEGER PRIMARY KEY REFERENCES documents(id) ON DELETE CASCADE, body_bytes INTEGER NOT NULL DEFAULT 0, summary_bytes INTEGER NOT NULL DEFAULT 0, updated_at DATETIME NOT NULL DEFAULT CURRENT_TIMESTAMP"),
  .createTable ("folder_token_cache") ("folder_id INTEGER PRIMARY KEY REFERENCES folders(id) ON DELETE CASCADE, total_bytes INTEGER NOT NULL DEFAULT 0, document_count INTEGER NOT NULL DEFAULT 0, updated_at DATETIME NOT NULL DEFAULT CURRENT_TIMESTAMP"),
  .createTable ("grdb_migrations") ("identifier TEXT PRIMARY KEY NOT NULL"),
  .insertMigration ("v1_initial"),
  .insertMigration ("v2_context_management"),
  .insertMigration ("v3_cleanup"),
  .insertMigration ("v4_fix_sources_fk"),
  .insertMigration ("v5_deletion_log_timestamps"),
  .insertMigration ("v6_hierarchical_paths")]

/-- Model of create_database from src/create_db.py: run every
statement in order against the store state. -/
def createDatabase (st : DbState) : DbState := schemaCmds.foldl applyCmd st

/-- Freshly created store with no tables and no rows. -/
def emptyDb : DbState := { tables := [], indexes := [], migrations := [] }

/-- Satisfaction of one schema statement by a store state: the table or
index name exists, or the migration identifier row exists. -/
def cmdDone (st : DbState) : DbCmd → Prop
  | .createTable name _ => name ∈ st.tables.map Prod.fst
  | .createIndex name _ => name ∈ st.indexes.map Prod.fst
  | .insertMigration idf => idf ∈ st.migrations

/-- Boolean test that one list begins with another, used to state that
already-committed rows survive at the front of the table. -/
def beginsWith {α : Type} [DecidableEq α] : List α → List α → Bool
  | [], _ => true
  | _ :: _, [] => false
  | a :: as, b :: bs => decide (a = b) && beginsWith as bs

/-- Boolean statement that every folder of a directory chain is
persisted in a state: each prefix of the components is memoized in the
folder_map, its folder row is in the folders table, and outside
database-only mode its directory exists on disk. -/
def chainPersisted (dbOnly : Bool) (st : ImportState) (parts : List (List Char)) : Bool :=
  (List.range parts.length).all (fun k =>
    match mapLookup st.folderMap (joinParts (parts.take (k + 1))) with
    | none => false
    | some (fid, dpath) =>
      st.folders.any (fun row => decide (row.id = fid) && decide (row.diskPath = dpath))
        && (dbOnly || decide (dpath ∈ st.fs)))

/-- Consistency of the folder_map memo with the database and the disk:
every memoized (folder id, disk path) has a matching folders row, and
outside database-only mode its directory exists. -/
def folderMapConsistent (dbOnly : Bool) (st : ImportState) : Prop :=
  ∀ key fid dpath, mapLookup st.folderMap key = some (fid, dpath) →
    (∃ row ∈ st.folders, row.id = fid ∧ row.diskPath = dpath)
    ∧ (dbOnly = false → dpath ∈ st.fs)

/-- Importer state before any work: empty filesystem, empty tables,
empty memo, AUTOINCREMENT counters at one. -/
def emptyState : ImportState :=
  { fs := [], documents := [], folders := [], sources := [], transcripts := [],
    deletionLog := [], folderMap := [], nextFolderId := 1, nextDocId := 1 }

/-- Concrete readable file used by witnesses. -/
def mdA : MdFile :=
  { folderParts := [], filename := ("a.md").toList, mtime := 1000,
    content := some (("x").toList) }

/-- Second concrete readable file used by witnesses. -/
def mdB : MdFile :=
  { folderParts := [], filename := ("b.md").toList, mtime := 1000,
    content := some (("y").toList) }

/-- Concrete unreadable file used by witnesses. -/
def mdBad : MdFile :=
  { folderParts := [("d").toList], filename := ("c.md").toList, mtime := 1000,
    content := none }

/-- Result state of the concrete two-file database-only run used by the
ordering witness. -/
def run2Result : ImportState :=
  (importLoop true 2 emptyState [mdA, mdB] 0).getD emptyState

/-- Result state of the concrete one-file database-only run used by the
skip witness. -/
def run1Result : ImportState :=
  (importLoop true 3 emptyState [mdA] 0).getD emptyState

theorem mem_replaceBadChars {c : Char} {l : List Char}
    (h : c ∈ replaceBadChars l) : isBadChar c = false := by
  simp only [replaceBadChars, List.mem_map] at h
  obtain ⟨a, _, ha⟩ := h
  by_cases hb : isBadChar a
  · simp [hb] at ha
    subst ha
    decide
  · simp [hb] at ha
    subst ha
    simpa using hb

theorem mem_collapseSpaces {c : Char} : ∀ {l : List Char},
    c ∈ collapseSpaces l → c ∈ l := by
  intro l
  induction l using collapseSpaces.induct with
  | case1 => simp [collapseSpaces]
  | case2 c' => simp [collapseSpaces]
  | case3 c1 c2 rest hsp ih =>
    intro h
    rw [collapseSpaces, if_pos hsp] at h
    exact List.mem_cons_of_mem c1 (ih h)
  | case4 c1 c2 rest hsp ih =>
    intro h
    rw [collapseSpaces, if_neg hsp] at h
    rcases List.mem_cons.mp h with h | h
    · exact h ▸ List.mem_cons_self c1 _
    · exact List.mem_cons_of_mem c1 (ih h)

theorem mem_dropWhile {c : Char} {p : Char → Bool} : ∀ {l : List Char},
    c ∈ l.dropWhile p → c ∈ l := by
  intro l
  induction l with
  | nil => simp
  | cons a l ih =>
    intro h
    rw [List.dropWhile_cons] at h
    by_cases hp : p a
    · simp only [hp, if_pos] at h
      exact List.mem_cons_of_mem a (ih h)
    · simp only [hp] at h
      simpa using h

theorem mem_stripWs {c : Char} {l : List Char} (h : c ∈ stripWs l) : c ∈ l := by
  unfold stripWs at h
  rw [List.mem_reverse] at h
  have h2 := mem_dropWhile h
  rw [List.mem_reverse] at h2
  exact mem_dropWhile h2

theorem mem_stripDots {c : Char} {l : List Char} (h : c ∈ stripDots l) : c ∈ l := by
  unfold stripDots at h
  rw [List.mem_reverse] at h
  have h2 := mem_dropWhile h
  rw [List.mem_reverse] at h2
  exact mem_dropWhile h2

theorem mem_truncGo {c : Char} : ∀ {n : Nat} {l : List Char},
    c ∈ truncGo n l → c ∈ l := by
  intro n
  induction n with
  | zero => intro l h; simpa [truncGo] using h
  | succ n ih =>
    intro l h
    rw [truncGo] at h
    by_cases hl : 255 < utf8Len l
    · rw [if_pos hl] at h
      exact (List.dropLast_sublist l).subset (ih h)
    · rw [if_neg hl] at h
      exact h

theorem utf8Len_truncGo : ∀ (n : Nat) (l : List Char), l.length ≤ n →
    utf8Len (truncGo n l) ≤ 255 := by
  intro n
  induction n with
  | zero =>
    intro l hl
    have : l = [] := List.length_eq_zero.mp (Nat.le_zero.mp hl)
    subst this
    simp [truncGo, utf8Len]
  | succ n ih =>
    intro l hl
    rw [truncGo]
    by_cases hb : 255 < utf8Len l
    · rw [if_pos hb]
      apply ih
      have hne : l ≠ [] := by
        intro he
        rw [he] at hb
        simp [utf8Len] at hb
      have := List.length_dropLast l
      have hpos : 0 < l.length := List.length_pos.mpr hne
      omega
    · rw [if_neg hb]
      omega

/-- Claim C1: for every input string, sanitize_filename returns a string
that contains no slash, no colon and no control character (code points
0 through 31, as the spec defines them), is never empty, and has UTF-8
byte length at most 255. -/
theorem sanitize_output_safe (name : List Char) :
    (sanitizeFilename name).all (fun c => !(isBadChar c)) = true
    ∧ (sanitizeFilename name).isEmpty = false
    ∧ utf8Len (sanitizeFilename name) ≤ 255 := by
  unfold sanitizeFilename
  by_cases he : truncate255 (stripDots (stripWs (collapseSpaces
      (replaceBadChars (replaceDotDot name))))) = []
  · rw [if_pos he]
    refine ⟨by decide, by decide, by decide⟩
  · rw [if_neg he]
    refine ⟨?_, by simp [List.isEmpty_iff]; exact he, ?_⟩
    · rw [List.all_eq_true]
      intro c hc
      have hc2 : c ∈ replaceBadChars (replaceDotDot name) :=
        mem_collapseSpaces (mem_stripWs (mem_stripDots
          (mem_truncGo (truncate255.eq_def _ ▸ hc))))
      simp [mem_replaceBadChars hc2]
    · exact utf8Len_truncGo _ _ (Nat.le_refl _)


theorem containsMd_cons {c : Char} {l : List Char}
    (h : containsMd (c :: l) = false) : containsMd l = false := by
  match l with
  | [] => rfl
  | [_] => rfl
  | c2 :: c3 :: rest =>
    rw [containsMd, Bool.or_eq_false_iff] at h
    exact h.2

theorem containsMd_append_right {a b : List Char}
    (h : containsMd (a ++ b) = false) : containsMd b = false := by
  induction a with
  | nil => exact h
  | cons c a ih => exact ih (containsMd_cons h)

theorem removeMd_eq_self : ∀ {l : List Char},
    containsMd l = false → removeMd l = l := by
  intro l
  induction l using removeMd.induct with
  | case1 => intro _; rfl
  | case2 => intro _; rfl
  | case3 => intro _; rfl
  | case4 c c2 c3 rest hmd ih =>
    intro h
    rw [containsMd, Bool.or_eq_false_iff] at h
    exfalso
    rcases hmd with ⟨h1, h2, h3⟩
    have := h.1
    simp [h1, h2, h3] at this
  | case5 c c2 c3 rest hmd ih =>
    intro h
    rw [removeMd, if_neg hmd]
    rw [containsMd, Bool.or_eq_false_iff] at h
    rw [ih h.2]

theorem removeMd_deletes {s : List Char} : ∀ {p : List Char},
    containsMd (p ++ s) = false →
    removeMd (p ++ '.' :: 'm' :: 'd' :: s) = p ++ s := by
  intro p
  induction p with
  | nil =>
    intro h
    simp only [List.nil_append]
    rw [removeMd, if_pos ⟨rfl, rfl, rfl⟩]
    exact removeMd_eq_self h
  | cons c p ih =>
    intro h
    have hp : containsMd (p ++ s) = false := containsMd_cons h
    have hrec := ih hp
    cases p with
    | nil =>
      simp only [List.nil_append] at hrec
      simp only [List.cons_append, List.nil_append]
      rw [removeMd, if_neg (by intro hc; exact absurd hc.2.1 (by decide)), hrec]
    | cons c2 p2 =>
      cases p2 with
      | nil =>
        simp only [List.singleton_append] at hrec
        simp only [List.cons_append, List.nil_append]
        rw [removeMd, if_neg (by intro hc; exact absurd hc.2.2 (by decide)), hrec]
      | cons c3 p3 =>
        simp only [List.cons_append] at hrec
        simp only [List.cons_append]
        rw [removeMd, if_neg ?hno, hrec]
        case hno =>
          intro hc
          obtain ⟨h1, h2, h3⟩ := hc
          subst h1; subst h2; subst h3
          simp only [List.cons_append] at h
          rw [containsMd] at h
          simp at h

/-- Claim C8: clean_title removes every occurrence of the dot-m-d
substring anywhere in the filename, not only a trailing extension:
inserting such an occurrence anywhere into a filename that contains
none leaves the resulting title unchanged, i.e. the inserted interior
occurrence is deleted. -/
theorem clean_title_removes_interior_md (p s : List Char)
    (h : containsMd (p ++ s) = false) :
    cleanTitle (p ++ '.' :: 'm' :: 'd' :: s) = cleanTitle (p ++ s) := by
  unfold cleanTitle
  rw [removeMd_deletes h, removeMd_eq_self h]

/-- Witness for claim C8 at a concrete interior occurrence: the
filename a.md-b has the extension pattern in the middle and cleans to
the same title as a-b. -/
theorem clean_title_removes_interior_md_witness :
    containsMd (('a' :: []) ++ ('-' :: 'b' :: [])) = false
    ∧ cleanTitle (('a' :: []) ++ '.' :: 'm' :: 'd' :: ('-' :: 'b' :: []))
      = cleanTitle (('a' :: []) ++ ('-' :: 'b' :: [])) :=
  ⟨by decide, clean_title_removes_interior_md ('a' :: []) ('-' :: 'b' :: []) (by decide)⟩

theorem cmdDone_applyCmd_self (st : DbState) (c : DbCmd) :
    cmdDone (applyCmd st c) c := by
  cases c with
  | createTable name ddl =>
    simp only [applyCmd, cmdDone]
    by_cases h : name ∈ st.tables.map Prod.fst
    · simp [h]
    · simp [h]
  | createIndex name ddl =>
    simp only [applyCmd, cmdDone]
    by_cases h : name ∈ st.indexes.map Prod.fst
    · simp [h]
    · simp [h]
  | insertMigration idf =>
    simp only [applyCmd, cmdDone]
    by_cases h : idf ∈ st.migrations
    · simp [h]
    · simp [h]

theorem cmdDone_mono (st : DbState) (c c2 : DbCmd) (h : cmdDone st c) :
    cmdDone (applyCmd st c2) c := by
  cases c2 <;> cases c <;>
    simp only [applyCmd, cmdDone] at h ⊢ <;>
    split <;> simp_all [List.map_append, List.mem_append]

theorem applyCmd_of_done (st : DbState) (c : DbCmd) (h : cmdDone st c) :
    applyCmd st c = st := by
  cases c <;> simp only [applyCmd, cmdDone] at h ⊢ <;> rw [if_pos h]

theorem foldl_cmdDone (cmds : List DbCmd) (st : DbState) (c : DbCmd)
    (h : cmdDone st c) : cmdDone (cmds.foldl applyCmd st) c := by
  induction cmds generalizing st with
  | nil => exact h
  | cons d ds ih => exact ih (applyCmd st d) (cmdDone_mono st c d h)

theorem all_cmdDone (cmds : List DbCmd) (st : DbState) :
    ∀ c ∈ cmds, cmdDone (cmds.foldl applyCmd st) c := by
  induction cmds generalizing st with
  | nil => intro c hc; cases hc
  | cons d ds ih =>
    intro c hc
    rcases List.mem_cons.mp hc with h | h
    · subst h
      exact foldl_cmdDone ds (applyCmd st c) c (cmdDone_applyCmd_self st c)
    · exact ih (applyCmd st d) c h

theorem foldl_eq_of_done (cmds : List DbCmd) (st : DbState)
    (h : ∀ c ∈ cmds, cmdDone st c) : cmds.foldl applyCmd st = st := by
  induction cmds with
  | nil => rfl
  | cons d ds ih =>
    have hd : applyCmd st d = st := applyCmd_of_done st d (h d (List.mem_cons_self d ds))
    simp only [List.foldl_cons, hd]
    exact ih (fun c hc => h c (List.mem_cons_of_mem d hc))

/-- Claim C4: running create_database a second time against the same
store raises no error (the model is a total function) and leaves the
state unchanged; from a fresh store the migration table contains
exactly the six seeded identifiers with no duplicate rows. -/
theorem create_database_idempotent (st : DbState) :
    createDatabase (createDatabase st) = createDatabase st
    ∧ (createDatabase emptyDb).migrations
      = [("v1_initial" : String), "v2_context_management", "v3_cleanup",
         "v4_fix_sources_fk", "v5_deletion_log_timestamps", "v6_hierarchical_paths"]
    ∧ (createDatabase emptyDb).migrations.Nodup := by
  refine ⟨?_, by decide, by decide⟩
  exact foldl_eq_of_done schemaCmds (createDatabase st) (all_cmdDone schemaCmds st)

/-- Claim C5 counterexample: the destructive reset keeps a non-hidden
top-level plain file (clear_filesystem removes only directories), so it
is false that every non-hidden top-level entry under the data directory
is removed. -/
theorem destructive_reset_keeps_plain_file :
    clearFilesystem [{ name := ("stray.txt").toList, isDirectory := false }]
      = [{ name := ("stray.txt").toList, isDirectory := false }]
    ∧ hiddenEntry { name := ("stray.txt").toList, isDirectory := false } = false := by
  exact ⟨rfl, rfl⟩

/-- Claim C5, amended: after the destructive reset the transcripts,
sources, documents, folders and deletion_log tables are all empty, and
every non-hidden top-level DIRECTORY entry under the data directory has
been removed from disk; entries that are not directories, and hidden
entries, are retained. -/
theorem destructive_reset_clears (st : ImportState) (entries : List FsEntry) :
    (clearDatabase st).transcripts = []
    ∧ (clearDatabase st).sources = []
    ∧ (clearDatabase st).documents = []
    ∧ (clearDatabase st).folders = []
    ∧ (clearDatabase st).deletionLog = []
    ∧ (clearFilesystem entries).all (fun e => !(e.isDirectory && !(hiddenEntry e))) = true := by
  refine ⟨rfl, rfl, rfl, rfl, rfl, ?_⟩
  rw [List.all_eq_true]
  intro e he
  rw [clearFilesystem, List.mem_filter] at he
  exact he.2

/-- Claim C10: in database-only mode the collision check is skipped, so
two titles that sanitize to the same name in the same folder are
assigned the identical document disk_path, and the second insert
violates the UNIQUE constraint on documents.disk_path and raises an
error (modeled as none) instead of producing a disambiguated row. -/
theorem db_only_collision_unique_violation (st : ImportState)
    (t1 t2 folderDiskPath content1 content2 : List Char) (folderId : Option Nat)
    (ca1 ca2 : Int)
    (hsan : sanitizeFilename t2 = sanitizeFilename t1)
    (hfree : joinSeg folderDiskPath (docBundleName (sanitizeFilename t1)) ∉ docPaths st) :
    ((createDocument true st t1 folderId content1 ca1 folderDiskPath).map
        (fun r => docPaths r.1))
      = some (docPaths st ++ [joinSeg folderDiskPath (docBundleName (sanitizeFilename t1))])
    ∧ ((createDocument true st t1 folderId content1 ca1 folderDiskPath).bind
        (fun r => createDocument true r.1 t2 folderId content2 ca2 folderDiskPath)) = none := by
  refine ⟨?_, ?_⟩
  · rw [createDocument]
    simp only [if_pos rfl, if_true]
    rw [if_neg hfree]
    simp [docPaths]
  · rw [createDocument]
    simp only [if_pos rfl, if_true]
    rw [if_neg hfree, Option.some_bind, createDocument, hsan]
    simp only [if_pos rfl, if_true]
    rw [if_pos (by simp [docPaths])]

/-- Witness for claim C10 at a concrete state: importing the same title
twice into a fresh database-only importer assigns the path t.document
to the first document and makes the second insert fail. -/
theorem db_only_collision_unique_violation_witness :
    ((createDocument true emptyState (("t").toList) none (("x").toList) 0 []).map
        (fun r => docPaths r.1))
      = some (docPaths emptyState
          ++ [joinSeg [] (docBundleName (sanitizeFilename (("t").toList)))])
    ∧ ((createDocument true emptyState (("t").toList) none (("x").toList) 0 []).bind
        (fun r => createDocument true r.1 (("t").toList) none (("y").toList) 0 [])) = none :=
  db_only_collision_unique_violation emptyState (("t").toList) (("t").toList) []
    (("x").toList) (("y").toList) none 0 0 rfl (by decide)

theorem mem_le_maxLen {p : List Char} : ∀ {fs : List (List Char)},
    p ∈ fs → p.length ≤ maxLen fs := by
  intro fs
  induction fs with
  | nil => intro h; cases h
  | cons q fs ih =>
    intro h
    rcases List.mem_cons.mp h with h | h
    · subst h
      exact le_max_left _ _
    · exact le_trans (ih h) (le_max_right _ _)

theorem toDecimalGo_lt : ∀ (fuel n : Nat), n < fuel →
    n < 10 ^ (toDecimalGo fuel n).length := by
  intro fuel
  induction fuel with
  | zero => intro n h; omega
  | succ f ih =>
    intro n h
    rw [toDecimalGo]
    by_cases h10 : n < 10
    · rw [if_pos h10]
      simpa using h10
    · rw [if_neg h10]
      have hdiv : n / 10 < f := by omega
      have hd := ih (n / 10) hdiv
      rw [List.length_append, List.length_singleton, pow_succ]
      omega

theorem toDecimal_lt (n : Nat) : n < 10 ^ (toDecimal n).length :=
  toDecimalGo_lt (n + 1) n (by omega)

theorem toDecimal_length_le_candPath (fdp s : List Char) (counter : Nat) :
    (toDecimal counter).length ≤ (candPath fdp s counter).length := by
  by_cases h : fdp = []
  · simp [candPath, joinSeg, candBundleName, h]
    omega
  · simp [candPath, joinSeg, candBundleName, h]
    omega

theorem resolveGo_not_mem (fs : List (List Char)) (fdp s : List Char) :
    ∀ (fuel counter : Nat), 10 ^ (maxLen fs + 1) ≤ fuel + counter →
    resolveGo fs fdp s fuel counter ∉ fs := by
  intro fuel
  induction fuel with
  | zero =>
    intro counter h hmem
    rw [resolveGo] at hmem
    have h1 := mem_le_maxLen hmem
    have h2 := toDecimal_length_le_candPath fdp s counter
    have h3 := toDecimal_lt counter
    have h4 : (toDecimal counter).length ≤ maxLen fs := le_trans h2 h1
    have h5 : counter < 10 ^ maxLen fs :=
      lt_of_lt_of_le h3 (Nat.pow_le_pow_right (by omega) h4)
    have h6 : 10 ^ maxLen fs < 10 ^ (maxLen fs + 1) :=
      Nat.pow_lt_pow_succ (by omega)
    omega
  | succ f ih =>
    intro counter h
    rw [resolveGo]
    by_cases hm : candPath fdp s counter ∈ fs
    · rw [if_pos hm]
      exact ih (counter + 1) (by omega)
    · rw [if_neg hm]
      exact hm

theorem resolveCollision_not_mem (fs : List (List Char)) (fdp s : List Char)
    (counter : Nat) (h : counter ≤ 10 ^ (maxLen fs + 1)) :
    resolveCollision fs fdp s counter ∉ fs :=
  resolveGo_not_mem fs fdp s _ counter (by omega)

theorem resolveGo_of_not_mem {fs : List (List Char)}
    {folderDiskPath sanitized : List Char} {counter : Nat}
    (h : candPath folderDiskPath sanitized counter ∉ fs) (fuel : Nat) :
    resolveGo fs folderDiskPath sanitized fuel counter
      = candPath folderDiskPath sanitized counter := by
  cases fuel with
  | zero => rfl
  | succ n => rw [resolveGo, if_neg h]

theorem resolveCollision_of_not_mem {fs : List (List Char)}
    {folderDiskPath sanitized : List Char} {counter : Nat}
    (h : candPath folderDiskPath sanitized counter ∉ fs) :
    resolveCollision fs folderDiskPath sanitized counter
      = candPath folderDiskPath sanitized counter :=
  resolveGo_of_not_mem h _

theorem candPath_two_length (fdp s : List Char) :
    (candPath fdp s 2).length = (joinSeg fdp (docBundleName s)).length + 2 := by
  have h9 : ((".document").toList).length = 9 := rfl
  have h1 : (toDecimal 2).length = 1 := rfl
  by_cases h : fdp = []
  · simp [candPath, joinSeg, candBundleName, docBundleName, h, h9, h1]
  · simp [candPath, joinSeg, candBundleName, docBundleName, h, h9, h1]
    omega

theorem candPath_two_not_child (fdp s suffix : List Char) (hlen : suffix.length ≠ 2) :
    candPath fdp s 2 ≠ joinSeg fdp (docBundleName s) ++ suffix := by
  intro h
  have hl := congrArg List.length h
  rw [candPath_two_length, List.length_append] at hl
  omega

theorem createDocument_first (st : ImportState) (t X fdp content : List Char)
    (fid : Option Nat) (ca : Int)
    (hs : sanitizeFilename t = X)
    (hout : joinSeg fdp (docBundleName X) ∉ st.fs)
    (hdb : joinSeg fdp (docBundleName X) ∉ docPaths st) :
    createDocument false st t fid content ca fdp
      = some
        ({ st with
            fs := (st.fs ++ [joinSeg fdp (docBundleName X),
                joinSeg fdp (docBundleName X) ++ ("/sources").toList,
                joinSeg fdp (docBundleName X) ++ ("/body.md").toList,
                joinSeg fdp (docBundleName X) ++ ("/summary.md").toList])
              ++ [joinSeg fdp (docBundleName X) ++ ("/metadata.yaml").toList],
            documents := st.documents ++
              [{ id := st.nextDocId, folderId := fid, title := t,
                  diskPath := joinSeg fdp (docBundleName X),
                  bodyPreview := content.take 500, createdAt := ca }],
            nextDocId := st.nextDocId + 1 },
          st.nextDocId) := by
  rw [createDocument, hs]
  simp only [if_neg Bool.false_ne_true]
  rw [if_neg hout, if_neg hdb]

theorem createDocument_second (st : ImportState) (t X fdp content : List Char)
    (fid : Option Nat) (ca : Int)
    (hs : sanitizeFilename t = X)
    (hin : joinSeg fdp (docBundleName X) ∈ st.fs)
    (hc2 : candPath fdp X 2 ∉ st.fs)
    (hdb : candPath fdp X 2 ∉ docPaths st) :
    (createDocument false st t fid content ca fdp).map (fun r => (docPaths r.1, r.2))
      = some (docPaths st ++ [candPath fdp X 2], st.nextDocId) := by
  rw [createDocument, hs]
  simp only [if_neg Bool.false_ne_true]
  rw [if_pos hin, resolveCollision_of_not_mem hc2, if_neg hdb]
  simp [docPaths]

/-- Claim C2: outside database-only mode, importing two titles that
sanitize to the same name X into the same folder (with the bundle
paths free beforehand) yields the on-disk bundle X.document for the
first document and X 2.document (counter starting at 2) for the second,
and inserts two document rows with distinct ids and distinct disk
paths. -/
theorem import_collision_disambiguation (st : ImportState)
    (t1 t2 X folderDiskPath content1 content2 : List Char) (folderId : Option Nat)
    (ca1 ca2 : Int)
    (hs1 : sanitizeFilename t1 = X)
    (hs2 : sanitizeFilename t2 = X)
    (hfs1 : joinSeg folderDiskPath (docBundleName X) ∉ st.fs)
    (hfs2 : candPath folderDiskPath X 2 ∉ st.fs)
    (hdb1 : joinSeg folderDiskPath (docBundleName X) ∉ docPaths st)
    (hdb2 : candPath folderDiskPath X 2 ∉ docPaths st) :
    ((createDocument false st t1 folderId content1 ca1 folderDiskPath).map
        (fun r => (docPaths r.1, r.2)))
      = some (docPaths st ++ [joinSeg folderDiskPath (docBundleName X)], st.nextDocId)
    ∧ (((createDocument false st t1 folderId content1 ca1 folderDiskPath).bind
        (fun r => createDocument false r.1 t2 folderId content2 ca2 folderDiskPath)).map
        (fun r => (docPaths r.1, r.2)))
      = some (docPaths st ++ [joinSeg folderDiskPath (docBundleName X),
          candPath folderDiskPath X 2], st.nextDocId + 1)
    ∧ joinSeg folderDiskPath (docBundleName X) ≠ candPath folderDiskPath X 2 := by
  have hne1 : candPath folderDiskPath X 2 ≠ joinSeg folderDiskPath (docBundleName X) := by
    have h := candPath_two_not_child folderDiskPath X [] (by decide)
    simpa using h
  refine ⟨?_, ?_, fun h => hne1 h.symm⟩
  · rw [createDocument_first st t1 X folderDiskPath content1 folderId ca1 hs1 hfs1 hdb1]
    simp [docPaths]
  · rw [createDocument_first st t1 X folderDiskPath content1 folderId ca1 hs1 hfs1 hdb1,
      Option.some_bind]
    rw [createDocument_second _ t2 X folderDiskPath content2 folderId ca2 hs2
      (by simp)
      (by
        intro hmem
        simp only [List.mem_append, List.mem_cons, List.not_mem_nil, or_false] at hmem
        rcases hmem with (hmem | hmem | hmem | hmem | hmem) | hmem
        · exact hfs2 hmem
        · exact hne1 hmem
        · exact candPath_two_not_child folderDiskPath X (("/sources").toList)
            (by decide) hmem
        · exact candPath_two_not_child folderDiskPath X (("/body.md").toList)
            (by decide) hmem
        · exact candPath_two_not_child folderDiskPath X (("/summary.md").toList)
            (by decide) hmem
        · exact candPath_two_not_child folderDiskPath X (("/metadata.yaml").toList)
            (by decide) hmem)
      (by
        intro hmem
        simp only [docPaths, List.map_append, List.map_cons, List.map_nil,
          List.mem_append, List.mem_cons, List.not_mem_nil, or_false] at hmem
        rcases hmem with hmem | hmem
        · exact hdb2 (by simpa [docPaths] using hmem)
        · exact hne1 hmem)]
    simp [docPaths]

/-- Witness for claim C2 at a concrete state: importing the title t
twice into a fresh importer with file creation yields bundle names
t.document and t 2.document and two rows with ids 1 and 2. -/
theorem import_collision_disambiguation_witness :
    ((createDocument false emptyState (("t").toList) none (("x").toList) 0 []).map
        (fun r => (docPaths r.1, r.2)))
      = some (docPaths emptyState ++ [joinSeg [] (docBundleName (("t").toList))],
          emptyState.nextDocId)
    ∧ (((createDocument false emptyState (("t").toList) none (("x").toList) 0 []).bind
        (fun r => createDocument false r.1 (("t").toList) none (("y").toList) 0 [])).map
        (fun r => (docPaths r.1, r.2)))
      = some (docPaths emptyState ++ [joinSeg [] (docBundleName (("t").toList)),
          candPath [] (("t").toList) 2], emptyState.nextDocId + 1)
    ∧ joinSeg [] (docBundleName (("t").toList)) ≠ candPath [] (("t").toList) 2 :=
  import_collision_disambiguation emptyState (("t").toList) (("t").toList) (("t").toList)
    [] (("x").toList) (("y").toList) none 0 0 (by decide) (by decide)
    (by decide) (by decide) (by decide) (by decide)

theorem createFolder_state (dbOnly : Bool) (st : ImportState) (name : List Char)
    (pid : Option Nat) (pd : List Char) :
    ((createFolder dbOnly st name pid pd).2.2).documents = st.documents
    ∧ ((createFolder dbOnly st name pid pd).2.2).folderMap = st.folderMap := by
  cases dbOnly <;> simp [createFolder]

theorem mapLookup_append_some {m : List (List Char × Nat × List Char)}
    {key : List Char} {v : Nat × List Char} (h : mapLookup m key = some v)
    (m2 : List (List Char × Nat × List Char)) :
    mapLookup (m ++ m2) key = some v := by
  induction m with
  | nil => simp [mapLookup] at h
  | cons e m ih =>
    obtain ⟨k, w⟩ := e
    rw [mapLookup] at h
    rw [List.cons_append, mapLookup]
    by_cases hk : k = key
    · rw [if_pos hk] at h ⊢; exact h
    · rw [if_neg hk] at h ⊢; exact ih h

theorem mapLookup_append_of_none {m : List (List Char × Nat × List Char)}
    {key : List Char} (h : mapLookup m key = none) (k2 : List Char)
    (v2 : Nat × List Char) :
    mapLookup (m ++ [(k2, v2)]) key = if k2 = key then some v2 else none := by
  induction m with
  | nil => simp [mapLookup]
  | cons e m ih =>
    obtain ⟨k, w⟩ := e
    rw [mapLookup] at h
    rw [List.cons_append, mapLookup]
    by_cases hk : k = key
    · rw [if_pos hk] at h; cases h
    · rw [if_neg hk] at h ⊢; exact ih h

theorem key_shift (done : List (List Char)) (part : List Char)
    (rest : List (List Char)) (j : Nat) :
    done ++ (part :: rest).take (j + 1 + 1) = (done ++ [part]) ++ rest.take (j + 1) := by
  rw [List.take_succ_cons, List.append_cons]

theorem hierAux_map_mono (dbOnly : Bool) : ∀ (parts : List (List Char))
    (st : ImportState) (done : List (List Char)) (pid : Option Nat) (pd : List Char)
    {key : List Char} {v : Nat × List Char},
    mapLookup st.folderMap key = some v →
    mapLookup ((hierAux dbOnly st done parts pid pd).2).folderMap key = some v := by
  intro parts
  induction parts with
  | nil => intro st done pid pd key v h; exact h
  | cons part rest ih =>
    intro st done pid pd key v h
    rw [hierAux]
    cases hl : mapLookup st.folderMap (joinParts (done ++ [part])) with
    | some w =>
      obtain ⟨fid, dpath⟩ := w
      exact ih st (done ++ [part]) (some fid) dpath h
    | none =>
      apply ih
      show mapLookup (((createFolder dbOnly st part pid pd).2.2).folderMap
        ++ [(joinParts (done ++ [part]), (createFolder dbOnly st part pid pd).1,
            (createFolder dbOnly st part pid pd).2.1)]) key = some v
      rw [(createFolder_state dbOnly st part pid pd).2]
      exact mapLookup_append_some h _

theorem hierAux_documents (dbOnly : Bool) : ∀ (parts : List (List Char))
    (st : ImportState) (done : List (List Char)) (pid : Option Nat) (pd : List Char),
    ((hierAux dbOnly st done parts pid pd).2).documents = st.documents := by
  intro parts
  induction parts with
  | nil => intro st done pid pd; rfl
  | cons part rest ih =>
    intro st done pid pd
    rw [hierAux]
    cases hl : mapLookup st.folderMap (joinParts (done ++ [part])) with
    | some w =>
      obtain ⟨fid, dpath⟩ := w
      exact ih st (done ++ [part]) (some fid) dpath
    | none =>
      rw [ih]
      show ((createFolder dbOnly st part pid pd).2.2).documents = st.documents
      exact (createFolder_state dbOnly st part pid pd).1

theorem hierAux_keys (dbOnly : Bool) : ∀ (parts : List (List Char))
    (st : ImportState) (done : List (List Char)) (pid : Option Nat) (pd : List Char)
    (j : Nat), j < parts.length →
    (mapLookup ((hierAux dbOnly st done parts pid pd).2).folderMap
      (joinParts (done ++ parts.take (j + 1)))).isSome = true := by
  intro parts
  induction parts with
  | nil => intro st done pid pd j hj; simp at hj
  | cons part rest ih =>
    intro st done pid pd j hj
    cases j with
    | zero =>
      rw [show (part :: rest).take (0 + 1) = [part] from rfl]
      rw [hierAux]
      cases hl : mapLookup st.folderMap (joinParts (done ++ [part])) with
      | some w =>
        obtain ⟨fid, dpath⟩ := w
        rw [hierAux_map_mono dbOnly rest st (done ++ [part]) (some fid) dpath hl]
        rfl
      | none =>
        have hnew : mapLookup ({ (createFolder dbOnly st part pid pd).2.2 with
            folderMap := ((createFolder dbOnly st part pid pd).2.2).folderMap
              ++ [(joinParts (done ++ [part]), (createFolder dbOnly st part pid pd).1,
                  (createFolder dbOnly st part pid pd).2.1)] }).folderMap
            (joinParts (done ++ [part]))
            = some ((createFolder dbOnly st part pid pd).1,
                (createFolder dbOnly st part pid pd).2.1) := by
          show mapLookup (((createFolder dbOnly st part pid pd).2.2).folderMap
            ++ [(joinParts (done ++ [part]), (createFolder dbOnly st part pid pd).1,
                (createFolder dbOnly st part pid pd).2.1)])
            (joinParts (done ++ [part])) = _
          rw [(createFolder_state dbOnly st part pid pd).2]
          rw [mapLookup_append_of_none hl, if_pos rfl]
        rw [hierAux_map_mono dbOnly rest _ (done ++ [part]) _ _ hnew]
        rfl
    | succ jj =>
      have hj2 : jj < rest.length := by simpa using Nat.lt_of_succ_lt_succ hj
      rw [key_shift done part rest jj]
      rw [hierAux]
      cases hl : mapLookup st.folderMap (joinParts (done ++ [part])) with
      | some w =>
        obtain ⟨fid, dpath⟩ := w
        exact ih st (done ++ [part]) (some fid) dpath jj hj2
      | none =>
        exact ih _ (done ++ [part]) _ _ jj hj2

theorem hierAux_pure (dbOnly : Bool) : ∀ (parts : List (List Char))
    (st : ImportState) (done : List (List Char)) (pid : Option Nat) (pd : List Char),
    (∀ j, j < parts.length →
      (mapLookup st.folderMap (joinParts (done ++ parts.take (j + 1)))).isSome = true) →
    (hierAux dbOnly st done parts pid pd).2 = st
    ∧ (parts ≠ [] →
        (mapLookup st.folderMap (joinParts (done ++ parts))).map
          (fun v => ((some v.1 : Option Nat), v.2))
        = some (hierAux dbOnly st done parts pid pd).1) := by
  intro parts
  induction parts with
  | nil =>
    intro st done pid pd h
    exact ⟨rfl, fun hne => absurd rfl hne⟩
  | cons part rest ih =>
    intro st done pid pd h
    have h0 := h 0 (by simp)
    rw [show (part :: rest).take (0 + 1) = [part] from rfl] at h0
    cases hl : mapLookup st.folderMap (joinParts (done ++ [part])) with
    | none => rw [hl] at h0; simp at h0
    | some w =>
      obtain ⟨fid, dpath⟩ := w
      rw [hierAux, hl]
      have hrest : ∀ j, j < rest.length →
          (mapLookup st.folderMap
            (joinParts ((done ++ [part]) ++ rest.take (j + 1)))).isSome = true := by
        intro j hj
        have hh := h (j + 1) (by simpa using Nat.succ_lt_succ hj)
        rwa [key_shift done part rest j] at hh
      have hp := ih st (done ++ [part]) (some fid) dpath hrest
      refine ⟨hp.1, fun _ => ?_⟩
      cases rest with
      | nil =>
        rw [hl]
        rfl
      | cons r rs =>
        have h2 := hp.2 (by simp)
        rw [List.append_cons done part (r :: rs)]
        exact h2

theorem beginsWith_iff {α : Type} [DecidableEq α] : ∀ (a b : List α),
    beginsWith a b = true ↔ ∃ t, b = a ++ t := by
  intro a
  induction a with
  | nil =>
    intro b
    simp [beginsWith]
  | cons x a ih =>
    intro b
    cases b with
    | nil =>
      rw [beginsWith]
      simp
    | cons y b =>
      rw [beginsWith]
      simp only [Bool.and_eq_true, decide_eq_true_eq]
      constructor
      · rintro ⟨rfl, h⟩
        obtain ⟨t, rfl⟩ := (ih b).mp h
        exact ⟨t, rfl⟩
      · rintro ⟨t, ht⟩
        rw [List.cons_append] at ht
        injection ht with h1 h2
        exact ⟨h1.symm, (ih b).mpr ⟨t, h2⟩⟩

theorem beginsWith_append_self {α : Type} [DecidableEq α] (a t : List α) :
    beginsWith a (a ++ t) = true :=
  (beginsWith_iff a (a ++ t)).mpr ⟨t, rfl⟩

/-- Claim C6: within one run, re-invoking the hierarchy resolver on a
path (or a prefix of it) whose folders were already created returns the
memoized (folder id, disk path) pair from the folder_map and leaves the
state unchanged, so no new folder row is inserted. -/
theorem folder_hierarchy_memoized (dbOnly : Bool) (st : ImportState)
    (parts subParts : List (List Char))
    (hpre : beginsWith subParts parts = true) (hne : subParts ≠ []) :
    (getOrCreateFolderHierarchy dbOnly
        ((getOrCreateFolderHierarchy dbOnly st parts).2) subParts).2
      = (getOrCreateFolderHierarchy dbOnly st parts).2
    ∧ (mapLookup ((getOrCreateFolderHierarchy dbOnly st parts).2).folderMap
          (joinParts subParts)).map (fun v => ((some v.1 : Option Nat), v.2))
      = some (getOrCreateFolderHierarchy dbOnly
          ((getOrCreateFolderHierarchy dbOnly st parts).2) subParts).1 := by
  obtain ⟨t, rfl⟩ := (beginsWith_iff subParts parts).mp hpre
  have hkeys : ∀ j, j < subParts.length →
      (mapLookup ((getOrCreateFolderHierarchy dbOnly st (subParts ++ t)).2).folderMap
        (joinParts ([] ++ subParts.take (j + 1)))).isSome = true := by
    intro j hj
    have htake : (subParts ++ t).take (j + 1) = subParts.take (j + 1) :=
      List.take_append_of_le_length (by omega)
    rw [List.nil_append, ← htake]
    have hk := hierAux_keys dbOnly (subParts ++ t) st [] none [] j
      (by simp; omega)
    simpa using hk
  have hp := hierAux_pure dbOnly subParts
    ((getOrCreateFolderHierarchy dbOnly st (subParts ++ t)).2) [] none [] hkeys
  exact ⟨hp.1, by simpa using hp.2 hne⟩

/-- Witness for claim C6 at a concrete run: after creating the chain
a/b from a fresh importer, resolving the prefix a again returns the
memoized pair and changes nothing. -/
theorem folder_hierarchy_memoized_witness :
    (getOrCreateFolderHierarchy false
        ((getOrCreateFolderHierarchy false emptyState
          [("a").toList, ("b").toList]).2) [("a").toList]).2
      = (getOrCreateFolderHierarchy false emptyState [("a").toList, ("b").toList]).2
    ∧ (mapLookup ((getOrCreateFolderHierarchy false emptyState
          [("a").toList, ("b").toList]).2).folderMap
          (joinParts [("a").toList])).map (fun v => ((some v.1 : Option Nat), v.2))
      = some (getOrCreateFolderHierarchy false
          ((getOrCreateFolderHierarchy false emptyState
            [("a").toList, ("b").toList]).2) [("a").toList]).1 :=
  folder_hierarchy_memoized false emptyState [("a").toList, ("b").toList]
    [("a").toList] (by decide) (by decide)

theorem createFolder_fields (dbOnly : Bool) (st : ImportState) (name : List Char)
    (pid : Option Nat) (pd : List Char) :
    (createFolder dbOnly st name pid pd).1 = st.nextFolderId
    ∧ (createFolder dbOnly st name pid pd).2.1 = joinSeg pd (sanitizeFilename name)
    ∧ ((createFolder dbOnly st name pid pd).2.2).folders
      = st.folders ++
        [{ id := st.nextFolderId, parentId := pid, name := name,
            diskPath := joinSeg pd (sanitizeFilename name) }]
    ∧ ((createFolder dbOnly st name pid pd).2.2).fs
      = (if dbOnly then st.fs else st.fs ++ [joinSeg pd (sanitizeFilename name)]) := by
  cases dbOnly <;> simp [createFolder]

theorem insertFolder_consistent (dbOnly : Bool) (st : ImportState) (part : List Char)
    (pid : Option Nat) (pd : List Char) (key0 : List Char)
    (h : folderMapConsistent dbOnly st) :
    folderMapConsistent dbOnly
      { (createFolder dbOnly st part pid pd).2.2 with
        folderMap := ((createFolder dbOnly st part pid pd).2.2).folderMap
          ++ [(key0, (createFolder dbOnly st part pid pd).1,
              (createFolder dbOnly st part pid pd).2.1)] } := by
  intro key fid dpath hlk
  have hmap : ((createFolder dbOnly st part pid pd).2.2).folderMap = st.folderMap :=
    (createFolder_state dbOnly st part pid pd).2
  have hfld := createFolder_fields dbOnly st part pid pd
  have hlk2 : mapLookup (st.folderMap ++ [(key0, (createFolder dbOnly st part pid pd).1,
      (createFolder dbOnly st part pid pd).2.1)]) key = some (fid, dpath) := by
    rw [← hmap]
    exact hlk
  cases hm : mapLookup st.folderMap key with
  | some v =>
    obtain ⟨fid0, dp0⟩ := v
    rw [mapLookup_append_some hm _] at hlk2
    injection hlk2 with he
    injection he with h1 h2
    subst h1
    subst h2
    obtain ⟨⟨row, hr, hid, hdp⟩, hf⟩ := h key fid0 dp0 hm
    constructor
    · refine ⟨row, ?_, hid, hdp⟩
      show row ∈ ((createFolder dbOnly st part pid pd).2.2).folders
      rw [hfld.2.2.1]
      exact List.mem_append_left _ hr
    · intro hdb
      show dp0 ∈ ((createFolder dbOnly st part pid pd).2.2).fs
      rw [hfld.2.2.2, hdb]
      simp only [if_neg Bool.false_ne_true]
      exact List.mem_append_left _ (hf hdb)
  | none =>
    rw [mapLookup_append_of_none hm _ _] at hlk2
    by_cases hk : key0 = key
    · rw [if_pos hk] at hlk2
      injection hlk2 with he
      injection he with h1 h2
      subst h1
      subst h2
      constructor
      · refine ⟨⟨st.nextFolderId, pid, part, joinSeg pd (sanitizeFilename part)⟩,
          ?_, hfld.1.symm, hfld.2.1.symm⟩
        show _ ∈ ((createFolder dbOnly st part pid pd).2.2).folders
        rw [hfld.2.2.1]
        exact List.mem_append_right _ (List.mem_singleton.mpr rfl)
      · intro hdb
        show (createFolder dbOnly st part pid pd).2.1
          ∈ ((createFolder dbOnly st part pid pd).2.2).fs
        rw [hfld.2.1, hfld.2.2.2, hdb]
        simp only [if_neg Bool.false_ne_true]
        exact List.mem_append_right _ (List.mem_singleton.mpr rfl)
    · rw [if_neg hk] at hlk2
      cases hlk2

theorem hierAux_consistent (dbOnly : Bool) : ∀ (parts : List (List Char))
    (st : ImportState) (done : List (List Char)) (pid : Option Nat) (pd : List Char),
    folderMapConsistent dbOnly st →
    folderMapConsistent dbOnly ((hierAux dbOnly st done parts pid pd).2) := by
  intro parts
  induction parts with
  | nil => intro st done pid pd h; exact h
  | cons part rest ih =>
    intro st done pid pd h
    rw [hierAux]
    cases hl : mapLookup st.folderMap (joinParts (done ++ [part])) with
    | some w =>
      obtain ⟨fid, dpath⟩ := w
      exact ih st (done ++ [part]) (some fid) dpath h
    | none =>
      apply ih
      exact insertFolder_consistent dbOnly st part pid pd (joinParts (done ++ [part])) h

/-- Claim C9: the folder rows for a file's directory chain are created
and committed before the file's content is read, so an unreadable file
(content none) still leaves its newly created ancestor folders
persisted: the loop proceeds to the rest of the files from the
post-hierarchy state, and in that state every prefix of the chain is
memoized, backed by a folders row, and, outside database-only mode, by
a directory on disk. -/
theorem folder_rows_persist_before_read (dbOnly : Bool) (total i : Nat)
    (st : ImportState) (bad : MdFile) (post : List MdFile)
    (hbad : bad.content = none) (hcons : folderMapConsistent dbOnly st) :
    importLoop dbOnly total st (bad :: post) i
      = importLoop dbOnly total
          ((getOrCreateFolderHierarchy dbOnly st bad.folderParts).2) post (i + 1)
    ∧ chainPersisted dbOnly ((getOrCreateFolderHierarchy dbOnly st bad.folderParts).2)
        bad.folderParts = true := by
  constructor
  · rw [importLoop, hbad]
  · rw [chainPersisted, List.all_eq_true]
    intro k hk
    rw [List.mem_range] at hk
    have hs := hierAux_keys dbOnly bad.folderParts st [] none [] k hk
    simp only [List.nil_append] at hs
    simp only [getOrCreateFolderHierarchy]
    cases hlk : mapLookup ((hierAux dbOnly st [] bad.folderParts none []).2).folderMap
        (joinParts (bad.folderParts.take (k + 1))) with
    | none => rw [hlk] at hs; simp at hs
    | some v =>
      obtain ⟨fid, dpath⟩ := v
      have hc2 := hierAux_consistent dbOnly bad.folderParts st [] none [] hcons
      obtain ⟨⟨row, hr, hid, hdp⟩, hf⟩ := hc2 _ _ _ hlk
      simp only [hlk]
      rw [Bool.and_eq_true]
      constructor
      · rw [List.any_eq_true]
        exact ⟨row, hr, by simp [hid, hdp]⟩
      · cases dbOnly with
        | true => rfl
        | false => simp [hf rfl]

/-- Witness for claim C9 at a concrete run: a single unreadable file in
directory d, imported from a fresh state, persists the folder row and
directory for d even though the read fails. -/
theorem folder_rows_persist_before_read_witness :
    (importLoop false 1 emptyState [mdBad] 0
      = importLoop false 1
          ((getOrCreateFolderHierarchy false emptyState mdBad.folderParts).2) [] (0 + 1))
    ∧ chainPersisted false
        ((getOrCreateFolderHierarchy false emptyState mdBad.folderParts).2)
        mdBad.folderParts = true :=
  folder_rows_persist_before_read false 1 0 emptyState mdBad [] rfl
    (fun _ _ _ h => Option.noConfusion h)

theorem getOrCreate_documents (dbOnly : Bool) (st : ImportState)
    (parts : List (List Char)) :
    ((getOrCreateFolderHierarchy dbOnly st parts).2).documents = st.documents :=
  hierAux_documents dbOnly parts st [] none []

theorem createDocument_some_docs {dbOnly : Bool} {st : ImportState} {t : List Char}
    {fid : Option Nat} {content : List Char} {ca : Int} {fdp : List Char}
    {st2 : ImportState} {did : Nat}
    (h : createDocument dbOnly st t fid content ca fdp = some (st2, did)) :
    did = st.nextDocId
    ∧ ∃ dp, st2.documents = st.documents ++
        [{ id := st.nextDocId, folderId := fid, title := t, diskPath := dp,
            bodyPreview := content.take 500, createdAt := ca }] := by
  cases dbOnly with
  | true =>
    rw [createDocument] at h
    simp only [if_pos rfl, if_true] at h
    by_cases hmem : joinSeg fdp (docBundleName (sanitizeFilename t)) ∈ docPaths st
    · rw [if_pos hmem] at h
      exact Option.noConfusion h
    · rw [if_neg hmem] at h
      injection h with he
      injection he with h1 h2
      refine ⟨h2.symm, joinSeg fdp (docBundleName (sanitizeFilename t)), ?_⟩
      rw [← h1]
  | false =>
    rw [createDocument] at h
    simp only [if_neg Bool.false_ne_true] at h
    by_cases hmem : (if joinSeg fdp (docBundleName (sanitizeFilename t)) ∈ st.fs then
        resolveCollision st.fs fdp (sanitizeFilename t) 2
      else joinSeg fdp (docBundleName (sanitizeFilename t))) ∈ docPaths st
    · rw [if_pos hmem] at h
      exact Option.noConfusion h
    · rw [if_neg hmem] at h
      injection h with he
      injection he with h1 h2
      refine ⟨h2.symm, (if joinSeg fdp (docBundleName (sanitizeFilename t)) ∈ st.fs then
        resolveCollision st.fs fdp (sanitizeFilename t) 2
        else joinSeg fdp (docBundleName (sanitizeFilename t))), ?_⟩
      rw [← h1]

theorem importLoop_append (dbOnly : Bool) (total : Nat) : ∀ (xs ys : List MdFile)
    (st : ImportState) (i : Nat),
    importLoop dbOnly total st (xs ++ ys) i
      = (importLoop dbOnly total st xs i).bind
          (fun s => importLoop dbOnly total s ys (i + xs.length)) := by
  intro xs
  induction xs with
  | nil =>
    intro ys st i
    simp [importLoop]
  | cons x xs ih =>
    intro ys st i
    have hi : i + 1 + xs.length = i + (x :: xs).length := by
      simp only [List.length_cons]
      omega
    cases hc : x.content with
    | none =>
      simp only [List.cons_append, importLoop, hc, List.append_eq]
      rw [ih, hi]
    | some c =>
      cases hd : createDocument dbOnly
          ((getOrCreateFolderHierarchy dbOnly st x.folderParts).2)
          (cleanTitle x.filename)
          ((getOrCreateFolderHierarchy dbOnly st x.folderParts).1).1 c
          (synthCreatedAt total x.mtime i)
          ((getOrCreateFolderHierarchy dbOnly st x.folderParts).1).2 with
      | none =>
        simp only [List.cons_append, importLoop, hc, hd, Option.none_bind]
      | some r =>
        obtain ⟨st2, did⟩ := r
        simp only [List.cons_append, importLoop, hc, hd, Option.some_bind,
          List.append_eq]
        rw [ih, hi]

theorem importLoop_docs_extend (dbOnly : Bool) (total : Nat) : ∀ (files : List MdFile)
    (st st2 : ImportState) (i : Nat),
    importLoop dbOnly total st files i = some st2 →
    ∃ tl, st2.documents = st.documents ++ tl := by
  intro files
  induction files with
  | nil =>
    intro st st2 i h
    injection h with h1
    exact ⟨[], by rw [← h1]; simp⟩
  | cons f rest ih =>
    intro st st2 i h
    cases hc : f.content with
    | none =>
      simp only [importLoop, hc] at h
      obtain ⟨tl, htl⟩ := ih _ _ _ h
      rw [getOrCreate_documents] at htl
      exact ⟨tl, htl⟩
    | some c =>
      simp only [importLoop, hc] at h
      cases hd : createDocument dbOnly
          ((getOrCreateFolderHierarchy dbOnly st f.folderParts).2)
          (cleanTitle f.filename)
          ((getOrCreateFolderHierarchy dbOnly st f.folderParts).1).1 c
          (synthCreatedAt total f.mtime i)
          ((getOrCreateFolderHierarchy dbOnly st f.folderParts).1).2 with
      | none =>
        simp only [hd] at h
        exact Option.noConfusion h
      | some r =>
        obtain ⟨stc, did⟩ := r
        simp only [hd] at h
        obtain ⟨tl, htl⟩ := ih _ _ _ h
        obtain ⟨hdid, dp, hdocs⟩ := createDocument_some_docs hd
        rw [getOrCreate_documents] at hdocs
        rw [htl, hdocs, List.append_assoc]
        exact ⟨_, rfl⟩

/-- Claim C7: when reading one source file fails, that file is skipped
(its folder hierarchy having already been resolved) and every remaining
file is still processed from the state reached after the prefix, and on
a successful run the documents committed before the failure are still
at the front of the documents table (no rollback). -/
theorem unreadable_file_skipped (dbOnly : Bool) (total i : Nat)
    (st st1 : ImportState) (pre post : List MdFile) (bad : MdFile)
    (hbad : bad.content = none)
    (hpre : importLoop dbOnly total st pre i = some st1) :
    importLoop dbOnly total st (pre ++ bad :: post) i
      = importLoop dbOnly total
          ((getOrCreateFolderHierarchy dbOnly st1 bad.folderParts).2) post
          (i + pre.length + 1)
    ∧ (importLoop dbOnly total st (pre ++ bad :: post) i).all
        (fun st2 => beginsWith st.documents st2.documents) = true := by
  have heq : importLoop dbOnly total st (pre ++ bad :: post) i
      = importLoop dbOnly total
        ((getOrCreateFolderHierarchy dbOnly st1 bad.folderParts).2) post
        (i + pre.length + 1) := by
    rw [importLoop_append dbOnly total pre (bad :: post) st i, hpre, Option.some_bind,
      importLoop, hbad]
  refine ⟨heq, ?_⟩
  cases hres : importLoop dbOnly total st (pre ++ bad :: post) i with
  | none => rfl
  | some st2 =>
    obtain ⟨tl, htl⟩ := importLoop_docs_extend dbOnly total _ st st2 i hres
    simp only [Option.all]
    rw [htl]
    exact beginsWith_append_self _ _

/-- Witness for claim C7 at a concrete run: with one readable file, one
unreadable file and one readable file after it, the loop continues past
the unreadable file and the earlier document is kept. -/
theorem unreadable_file_skipped_witness :
    (importLoop true 3 emptyState ([mdA] ++ mdBad :: [mdB]) 0
      = importLoop true 3
          ((getOrCreateFolderHierarchy true run1Result mdBad.folderParts).2) [mdB]
          (0 + [mdA].length + 1))
    ∧ (importLoop true 3 emptyState ([mdA] ++ mdBad :: [mdB]) 0).all
        (fun st2 => beginsWith emptyState.documents st2.documents) = true :=
  unreadable_file_skipped true 3 0 emptyState run1Result [mdA] [mdB] mdBad rfl
    (by decide)

theorem pairwise_synth (total : Nat) (M : Int) (i n : Nat) :
    ((List.range n).map (fun k => synthCreatedAt total M (i + k))).Pairwise (· < ·) := by
  refine List.Pairwise.map _ ?_ (List.pairwise_lt_range n)
  intro a b hab
  simp only [synthCreatedAt]
  have h1 : ((total : Int) - ((i + b : Nat) : Int))
      < ((total : Int) - ((i + a : Nat) : Int)) := by
    push_cast
    omega
  have h2 := mul_lt_mul_of_pos_right h1 (by norm_num : (0 : Int) < 60)
  exact sub_lt_sub_left h2 M

theorem importLoop_created_map (dbOnly : Bool) (total : Nat) (M : Int) :
    ∀ (files : List MdFile) (st st2 : ImportState) (i : Nat),
    (∀ f ∈ files, f.mtime = M) →
    (∀ f ∈ files, f.content ≠ none) →
    importLoop dbOnly total st files i = some st2 →
    (st2.documents.drop st.documents.length).map DocRow.createdAt
      = (List.range files.length).map (fun k => synthCreatedAt total M (i + k)) := by
  intro files
  induction files with
  | nil =>
    intro st st2 i hmt hrd h
    injection h with h1
    rw [← h1]
    simp
  | cons f rest ih =>
    intro st st2 i hmt hrd h
    cases hc : f.content with
    | none => exact absurd hc (hrd f (List.mem_cons_self f rest))
    | some c =>
      simp only [importLoop, hc] at h
      cases hd : createDocument dbOnly
          ((getOrCreateFolderHierarchy dbOnly st f.folderParts).2)
          (cleanTitle f.filename)
          ((getOrCreateFolderHierarchy dbOnly st f.folderParts).1).1 c
          (synthCreatedAt total f.mtime i)
          ((getOrCreateFolderHierarchy dbOnly st f.folderParts).1).2 with
      | none =>
        simp only [hd] at h
        exact Option.noConfusion h
      | some r =>
        obtain ⟨stc, did⟩ := r
        simp only [hd] at h
        obtain ⟨hdid, dp, hdocs⟩ := createDocument_some_docs hd
        rw [getOrCreate_documents] at hdocs
        obtain ⟨tl, htl⟩ := importLoop_docs_extend dbOnly total rest stc st2 (i + 1) h
        have hih := ih stc st2 (i + 1)
          (fun g hg => hmt g (List.mem_cons_of_mem f hg))
          (fun g hg => hrd g (List.mem_cons_of_mem f hg)) h
        have hdrop2 : st2.documents.drop stc.documents.length = tl := by
          rw [htl, List.drop_left]
        have htlmap : tl.map DocRow.createdAt
            = (List.range rest.length).map
                (fun k => synthCreatedAt total M (i + 1 + k)) := by
          rw [← hdrop2]
          exact hih
        have hgoal : st2.documents.drop st.documents.length
            = { id := ((getOrCreateFolderHierarchy dbOnly st f.folderParts).2).nextDocId,
                folderId := ((getOrCreateFolderHierarchy dbOnly st f.folderParts).1).1,
                title := cleanTitle f.filename, diskPath := dp,
                bodyPreview := c.take 500,
                createdAt := synthCreatedAt total f.mtime i } :: tl := by
          rw [htl, hdocs, List.append_assoc, List.drop_left]
          rfl
        rw [hgoal, List.map_cons, List.length_cons, List.range_succ_eq_map,
          List.map_cons, List.map_map]
        have hm := hmt f (List.mem_cons_self f rest)
        rw [hm, htlmap]
        refine congrArg₂ _ (by rw [Nat.add_zero]) ?_
        apply List.map_congr_left
        intro a ha
        show synthCreatedAt total M (i + 1 + a) = synthCreatedAt total M (i + (a + 1))
        have : i + 1 + a = i + (a + 1) := by omega
        rw [this]

/-- Claim C3: for a list of imported files sharing one modification
time, the synthesized creation timestamps are modification time minus
(total - index) minutes in processing order, and they form a strictly
increasing sequence, so creation-timestamp order equals processing
order. -/
theorem synthetic_timestamps_strictly_increasing (dbOnly : Bool) (total i : Nat)
    (M : Int) (st st2 : ImportState) (files : List MdFile)
    (hmt : ∀ f ∈ files, f.mtime = M)
    (hrd : ∀ f ∈ files, f.content ≠ none)
    (hok : importLoop dbOnly total st files i = some st2) :
    (st2.documents.drop st.documents.length).map DocRow.createdAt
      = (List.range files.length).map (fun k => synthCreatedAt total M (i + k))
    ∧ ((st2.documents.drop st.documents.length).map DocRow.createdAt).Pairwise
        (· < ·) := by
  have he := importLoop_created_map dbOnly total M files st st2 i hmt hrd hok
  refine ⟨he, ?_⟩
  rw [he]
  exact pairwise_synth total M i files.length

/-- Witness for claim C3 at a concrete run: importing two files with
the same modification time from a fresh state yields two creation
timestamps in strictly increasing processing order. -/
theorem synthetic_timestamps_strictly_increasing_witness :
    ((run2Result.documents.drop emptyState.documents.length).map DocRow.createdAt
      = (List.range ([mdA, mdB] : List MdFile).length).map
          (fun k => synthCreatedAt 2 1000 (0 + k)))
    ∧ ((run2Result.documents.drop emptyState.documents.length).map
        DocRow.createdAt).Pairwise (· < ·) :=
  synthetic_timestamps_strictly_increasing true 2 0 1000 emptyState run2Result
    [mdA, mdB] (by decide) (by decide) (by decide)

end HiDocu
